import Mathlib

/-!
Shallow embedding of the `tiwari91/redisstore` server (src/main.go).

Strings are modelled as `List Char` (Go strings restricted to the characters
the protocol actually uses).  Go's `map[string]string` and
`map[string][]string` are modelled as functions into `Option`, mirroring the
`value, ok := m[k]` idiom.  Go `int64` arithmetic is modelled on `Int` with an
explicit two's-complement wrap at 64 bits.  Each `KeyValueDB` method holds
`db.mu` for its whole body in the source, so every method is embedded as one
atomic state transformation; the per-connection handler loop is embedded as a
step function on the database plus the connection's `currentTxID`.
Server-side `fmt.Println` logging (stdout, not the connection) is not part of
the model; only bytes written to `conn` are collected as output lines.
-/

/-- Convert a Lean string literal to the `List Char` model of a Go string. -/
def str (s : String) : List Char := s.data

/-- Whitespace recognized by `strings.Fields` / `strings.TrimSpace`
(`unicode.IsSpace`), restricted to the ASCII whitespace characters. -/
def isGoSpace (c : Char) : Bool :=
  c = ' ' || c = '\t' || c = '\n' || c = '\x0b' || c = '\x0c' || c = '\r'

/-- Model of `strings.TrimSpace`: drop whitespace from both ends. -/
def trimSpace (s : List Char) : List Char :=
  ((s.dropWhile isGoSpace).reverse.dropWhile isGoSpace).reverse

/-- Accumulator-passing core of `strings.Fields`. -/
def fieldsAux : List Char → List Char → List (List Char)
  | acc, [] => if acc = [] then [] else [acc.reverse]
  | acc, c :: cs =>
    if isGoSpace c then
      if acc = [] then fieldsAux [] cs else acc.reverse :: fieldsAux [] cs
    else fieldsAux (c :: acc) cs

/-- Model of `strings.Fields`: split around runs of whitespace. -/
def fields (s : List Char) : List (List Char) := fieldsAux [] s

/-- Model of `strings.Join(parts, " ")`. -/
def joinSpace (parts : List (List Char)) : List Char :=
  List.intercalate [' '] parts

/-- ASCII upper-casing of one character, as `strings.ToUpper` does on the
ASCII range used by the protocol. -/
def toUpperChar (c : Char) : Char :=
  if 'a' ≤ c ∧ c ≤ 'z' then Char.ofNat (c.toNat - 32) else c

/-- Model of `strings.ToUpper` on ASCII strings. -/
def toUpperStr (s : List Char) : List Char := s.map toUpperChar

/-- The decimal digit character for `d` (`d < 10`; other inputs unused). -/
def digitToChar : Nat → Char
  | 0 => '0'
  | 1 => '1'
  | 2 => '2'
  | 3 => '3'
  | 4 => '4'
  | 5 => '5'
  | 6 => '6'
  | 7 => '7'
  | 8 => '8'
  | _ => '9'

/-- The digit value of a character, `none` when it is not `'0'`..`'9'`. -/
def charDigit? (c : Char) : Option Nat :=
  if '0' ≤ c ∧ c ≤ '9' then some (c.toNat - 48) else none

/-- Little-endian decimal digits of `n`, computed with explicit fuel so the
definition reduces in the kernel (`fuel ≥ n` suffices). -/
def toDigitsRev (fuel n : Nat) : List Nat :=
  match fuel with
  | 0 => []
  | f + 1 => if n = 0 then [] else n % 10 :: toDigitsRev f (n / 10)

/-- Little-endian decimal digits of `n` (empty exactly when `n = 0`). -/
def myDigits (n : Nat) : List Nat := toDigitsRev n n

/-- Value of a little-endian decimal digit list. -/
def ofD : List Nat → Nat
  | [] => 0
  | d :: ds => d + 10 * ofD ds

/-- Decimal digit characters of `n`, most significant first; `"0"` for `0`.
This is how `strconv.FormatInt` renders a non-negative number. -/
def natToChars (n : Nat) : List Char :=
  if n = 0 then ['0'] else ((myDigits n).map digitToChar).reverse

/-- Model of `strconv.FormatInt(i, 10)`. -/
def formatInt (i : Int) : List Char :=
  if i < 0 then '-' :: natToChars (-i).toNat else natToChars i.toNat

/-- Left-to-right accumulation of decimal digit characters; `none` on the
first non-digit character. -/
def parseDigitsAux (acc : Nat) : List Char → Option Nat
  | [] => some acc
  | c :: cs =>
    match charDigit? c with
    | none => none
    | some d => parseDigitsAux (acc * 10 + d) cs

/-- Parse a non-empty run of decimal digit characters. -/
def parseDigits : List Char → Option Nat
  | [] => none
  | c :: cs => (charDigit? c).bind fun d => parseDigitsAux d cs

/-- Model of `strconv.ParseInt(s, 10, 64)`: optional single sign, at least
one digit, and the signed-64-bit range check. -/
def parseInt64 (s : List Char) : Option Int :=
  match s with
  | [] => none
  | c :: rest =>
    if c = '+' then
      (parseDigits rest).bind fun n =>
        if (n : Int) < 2 ^ 63 then some (n : Int) else none
    else if c = '-' then
      (parseDigits rest).bind fun n =>
        if (n : Int) ≤ 2 ^ 63 then some (-(n : Int)) else none
    else
      (parseDigits (c :: rest)).bind fun n =>
        if (n : Int) < 2 ^ 63 then some (n : Int) else none

/-- Two's-complement wrap of an integer into the `int64` range, which is what
Go's `+` on `int64` performs. -/
def wrap64 (i : Int) : Int := (i + 2 ^ 63) % 2 ^ 64 - 2 ^ 63

/-- `i` is representable as a Go `int64`. -/
def inRange64 (i : Int) : Prop := -(2 ^ 63) ≤ i ∧ i < 2 ^ 63

instance (i : Int) : Decidable (inRange64 i) := by
  unfold inRange64; infer_instance

/-- The struct `KeyValueDB` of src/main.go: the key→value map `data` and the
transaction-queue map `queues` (both Go maps, modelled as `Option`-valued
functions; the mutex `mu` is represented by each method being one atomic
transformation). -/
structure KeyValueDB where
  data : List Char → Option (List Char)
  queues : List Char → Option (List (List Char))

/-- `NewKeyValueDB`: both maps start empty. -/
def NewKeyValueDB : KeyValueDB := ⟨fun _ => none, fun _ => none⟩

/-- `isValidValue` of src/main.go: a value containing a space must begin and
end with a double-quote character (`strings.HasPrefix`/`HasSuffix` with the
one-character pattern `"` are exactly these first/last-character tests). -/
def isValidValue (value : List Char) : Bool :=
  if value.contains ' ' then
    value.head? == some '"' && value.getLast? == some '"'
  else true

/-- `(db *KeyValueDB) Set`: validate, then store. The error value carries the
message text written by the caller. -/
def KeyValueDB.Set (db : KeyValueDB) (key value : List Char) :
    Except (List Char) Unit × KeyValueDB :=
  if ¬ isValidValue value then
    (Except.error (str "ERR syntax error: Value should be enclosed in quotes"), db)
  else
    (Except.ok (), { db with data := fun k => if k = key then some value else db.data k })

/-- `(db *KeyValueDB) Get`: the `(val, ok)` pair as an `Option`. -/
def KeyValueDB.Get (db : KeyValueDB) (key : List Char) : Option (List Char) :=
  db.data key

/-- `(db *KeyValueDB) Delete`: remove the key if present, report existence. -/
def KeyValueDB.Delete (db : KeyValueDB) (key : List Char) : Bool × KeyValueDB :=
  match db.data key with
  | some _ => (true, { db with data := fun k => if k = key then none else db.data k })
  | none => (false, db)

/-- `(db *KeyValueDB) Incr`: an absent key is first initialized to `"0"`;
the stored text is parsed as a base-10 `int64` (error `ERR value is not an
integer` on failure, leaving the map as it stands), then the sum is stored
and returned.  The whole body runs under `db.mu`, hence one atomic step. -/
def KeyValueDB.Incr (db : KeyValueDB) (key : List Char) (incrBy : Int) :
    Except (List Char) Int × KeyValueDB :=
  let vd : List Char × KeyValueDB :=
    match db.data key with
    | some v => (v, db)
    | none =>
      (['0'], { db with data := fun k => if k = key then some ['0'] else db.data k })
  match parseInt64 vd.1 with
  | none => (Except.error (str "ERR value is not an integer"), vd.2)
  | some current =>
    let current' := wrap64 (current + incrBy)
    (Except.ok current',
      { vd.2 with data := fun k => if k = key then some (formatInt current') else vd.2.data k })

/-- `(db *KeyValueDB) QueueCommand`: append `cmd` to the queue of `txID`
(a missing Go map entry behaves as the empty slice under `append`). -/
def KeyValueDB.QueueCommand (db : KeyValueDB) (txID cmd : List Char) : KeyValueDB :=
  { db with queues := fun t =>
      if t = txID then some (((db.queues txID).getD []) ++ [cmd]) else db.queues t }

/-- `(db *KeyValueDB) Exec`: a missing queue yields the single response
`ERR Transaction does not exist` (without touching the table); otherwise the
queue entry is deleted and each queued line produces a response — the raw
line itself for a well-formed `SET`, a usage message for a short `SET`, and
`Unknown command:` for everything else.  No queued line touches `data`. -/
def KeyValueDB.Exec (db : KeyValueDB) (txID : List Char) :
    List (List Char) × KeyValueDB :=
  match db.queues txID with
  | none => ([str "ERR Transaction does not exist"], db)
  | some queue =>
    let db' : KeyValueDB :=
      { db with queues := fun t => if t = txID then none else db.queues t }
    let responses := queue.foldl (fun rs cmd =>
      match fields cmd with
      | [] => rs
      | q0 :: _ =>
        let command := toUpperStr q0
        if command = str "SET" then
          if (fields cmd).length < 3 then rs ++ [str "Usage: SET <key> <value>"]
          else rs ++ [cmd]
        else rs ++ [str "Unknown command: " ++ command]) []
    (responses, db')

/-- The commands routed through `executeSingleCommand` (the first `case` of
the `switch` in `handleClient`). -/
def dataCmds : List (List Char) :=
  [str "SET", str "GET", str "DELETE", str "INCR", str "INCRBY"]

/-- Go's `%q` rendering of a value, restricted to the printable-ASCII case
that the protocol uses: the value between double quotes, with `\` and `"`
backslash-escaped. -/
def goQuote (v : List Char) : List Char :=
  let rec esc : List Char → List Char
    | [] => []
    | c :: cs => if c = '"' || c = '\\' then '\\' :: c :: esc cs else c :: esc cs
  '"' :: esc v ++ ['"']

/-- `executeSingleCommand` of src/main.go: dispatch on the (upper-cased)
command name, returning the updated database and the lines written to the
connection. -/
def executeSingleCommand (command : List Char) (parts : List (List Char))
    (db : KeyValueDB) : KeyValueDB × List (List Char) :=
  if command = str "SET" then
    match parts with
    | _ :: key :: v :: vs =>
      match db.Set key (joinSpace (v :: vs)) with
      | (Except.error e, db') => (db', [e])
      | (Except.ok _, db') => (db', [str "OK"])
    | _ => (db, [str "Usage: SET <key> <value>"])
  else if command = str "GET" then
    match parts with
    | _ :: key :: _ =>
      match db.Get key with
      | some val => (db, [goQuote val])
      | none => (db, [str "(nil)"])
    | _ => (db, [str "Usage: GET <key>"])
  else if command = str "DELETE" then
    match parts with
    | _ :: key :: _ =>
      match db.Delete key with
      | (true, db') => (db', [str "(integer) 1"])
      | (false, db') => (db', [str "(integer) 0"])
    | _ => (db, [str "Usage: DELETE <key>"])
  else if command = str "INCR" then
    match parts with
    | _ :: key :: _ =>
      match db.Incr key 1 with
      | (Except.error e, db') => (db', [e])
      | (Except.ok _, db') => (db', [str "OK"])
    | _ => (db, [str "Usage: INCR <key>"])
  else if command = str "INCRBY" then
    match parts with
    | _ :: key :: amt :: _ =>
      match parseInt64 amt with
      | none => (db, [str "ERR invalid increment"])
      | some incrBy =>
        match db.Incr key incrBy with
        | (Except.error e, db') => (db', [e])
        | (Except.ok _, db') => (db', [str "(integer) " ++ formatInt incrBy])
    | _ => (db, [str "Usage: INCRBY <key> <increment>"])
  else (db, [str "Unknown command: " ++ command])

/-- Result of one iteration of `handleClient`'s loop: the database, the
connection's `currentTxID` (`[]` plays Go's `""`, i.e. Idle), the lines
written to the connection, and whether the handler returned (DISCONNECT). -/
structure StepOut where
  db : KeyValueDB
  tx : List Char
  out : List (List Char)
  closed : Bool

/-- One iteration of the `handleClient` loop of src/main.go on the line just
read: trim, tokenize, and dispatch on the upper-cased first token.  In the
`EXEC` branch with an open transaction, the source iterates over
`db.Exec(currentTxID)`'s responses and, for each one, re-invokes
`executeSingleCommand` with the *stale* `command`/`parts` of the current
(EXEC) line before echoing the response — that stale re-invocation is
embedded verbatim. -/
def handleLine (db : KeyValueDB) (tx : List Char) (line : List Char) : StepOut :=
  let cmd := trimSpace line
  let parts := fields cmd
  match parts with
  | [] => ⟨db, tx, [], false⟩
  | p0 :: rest =>
    let command := toUpperStr p0
    if command ∈ dataCmds then
      if tx = [] then
        let r := executeSingleCommand command (p0 :: rest) db
        ⟨r.1, tx, r.2, false⟩
      else
        ⟨db.QueueCommand tx cmd, tx, [str "QUEUED"], false⟩
    else if command = str "MULTI" then
      ⟨db, str "1", [str "OK"], false⟩
    else if command = str "EXEC" then
      if tx = [] then
        ⟨db, tx, [str "ERR No transaction in progress"], false⟩
      else
        let er := db.Exec tx
        let fin := er.1.foldl (fun (p : KeyValueDB × List (List Char)) resp =>
          let e := executeSingleCommand command (p0 :: rest) p.1
          (e.1, p.2 ++ e.2 ++ [resp])) (er.2, [])
        ⟨fin.1, [], fin.2, false⟩
    else if command = str "DISCONNECT" then
      ⟨db, tx, [], true⟩
    else
      ⟨db, tx, [str "Unknown command: " ++ command], false⟩

/-- Feed a sequence of lines through `handleLine`, collecting all output
lines; processing stops when the handler returns (DISCONNECT). -/
def runLines (db : KeyValueDB) (tx : List Char) :
    List (List Char) → KeyValueDB × List Char × List (List Char)
  | [] => (db, tx, [])
  | l :: ls =>
    let r := handleLine db tx l
    if r.closed then (r.db, r.tx, r.out)
    else
      let rest := runLines r.db r.tx ls
      (rest.1, rest.2.1, r.out ++ rest.2.2)

/-- `n` applications of `Incr key 1` (the Store effect of `INCR key`), the
sequential composition to which any interleaving of `n` increments reduces,
each call being atomic under `db.mu`. -/
def incrN (db : KeyValueDB) (key : List Char) : Nat → KeyValueDB
  | 0 => db
  | n + 1 => (KeyValueDB.Incr (incrN db key n) key 1).2

/-! ### Decimal formatting and parsing round-trip -/

lemma pow63_lit : (2 : Int) ^ 63 = 9223372036854775808 := by norm_num

lemma pow64_lit : (2 : Int) ^ 64 = 18446744073709551616 := by norm_num

lemma charDigit_digitToChar (d : Nat) (hd : d < 10) :
    charDigit? (digitToChar d) = some d := by
  interval_cases d <;> decide

lemma toDigitsRev_lt (fuel : Nat) : ∀ n, ∀ d ∈ toDigitsRev fuel n, d < 10 := by
  induction fuel with
  | zero => intro n d hd; simp [toDigitsRev] at hd
  | succ f ih =>
    intro n d hd
    by_cases h0 : n = 0
    · simp [toDigitsRev, h0] at hd
    · simp only [toDigitsRev, h0, if_false] at hd
      rcases List.mem_cons.mp hd with rfl | hmem
      · omega
      · exact ih (n / 10) d hmem

lemma ofD_toDigitsRev (fuel : Nat) : ∀ n, n ≤ fuel → ofD (toDigitsRev fuel n) = n := by
  induction fuel with
  | zero => intro n h; simp [toDigitsRev, ofD]; omega
  | succ f ih =>
    intro n h
    by_cases h0 : n = 0
    · simp [toDigitsRev, h0, ofD]
    · simp only [toDigitsRev, h0, if_false, ofD]
      rw [ih (n / 10) (by omega)]
      omega

lemma myDigits_lt (n : Nat) : ∀ d ∈ myDigits n, d < 10 := toDigitsRev_lt n n

lemma ofD_myDigits (n : Nat) : ofD (myDigits n) = n := ofD_toDigitsRev n n le_rfl

lemma myDigits_ne_nil (n : Nat) (h : n ≠ 0) : myDigits n ≠ [] := by
  cases n with
  | zero => exact absurd rfl h
  | succ m => simp [myDigits, toDigitsRev]

lemma parseAux_append (xs ys : List Char) (acc : Nat) :
    parseDigitsAux acc (xs ++ ys) =
      (parseDigitsAux acc xs).bind fun m => parseDigitsAux m ys := by
  induction xs generalizing acc with
  | nil => simp [parseDigitsAux]
  | cons c cs ih =>
    simp only [List.cons_append, parseDigitsAux]
    cases charDigit? c <;> simp [ih]

lemma parseAux_digits (ds : List Nat) (h : ∀ d ∈ ds, d < 10) (acc : Nat) :
    parseDigitsAux acc ((ds.map digitToChar).reverse) =
      some (acc * 10 ^ ds.length + ofD ds) := by
  induction ds generalizing acc with
  | nil => simp [parseDigitsAux, ofD]
  | cons d ds ih =>
    have hd : d < 10 := h d (by simp)
    have hds : ∀ x ∈ ds, x < 10 := fun x hx => h x (by simp [hx])
    simp only [List.map_cons, List.reverse_cons]
    rw [parseAux_append, ih hds]
    simp [parseDigitsAux, charDigit_digitToChar d hd, ofD]
    ring

lemma parseDigits_eq_aux (c : Char) (cs : List Char) :
    parseDigits (c :: cs) = parseDigitsAux 0 (c :: cs) := by
  simp only [parseDigits, parseDigitsAux]
  cases charDigit? c <;> simp

lemma natToChars_ne_nil (n : Nat) : natToChars n ≠ [] := by
  rw [natToChars]
  split
  · simp
  · simp [myDigits_ne_nil n (by assumption)]

lemma parseDigits_natToChars (n : Nat) : parseDigits (natToChars n) = some n := by
  by_cases h0 : n = 0
  · subst h0; decide
  · obtain ⟨c, cs, hc⟩ : ∃ c cs, natToChars n = c :: cs := by
      cases hx : natToChars n with
      | nil => exact absurd hx (natToChars_ne_nil n)
      | cons c cs => exact ⟨c, cs, rfl⟩
    rw [hc, parseDigits_eq_aux, ← hc]
    rw [natToChars, if_neg h0]
    rw [parseAux_digits (myDigits n) (myDigits_lt n) 0]
    simp [ofD_myDigits]

lemma natToChars_all_digits (n : Nat) : ∀ c ∈ natToChars n, '0' ≤ c ∧ c ≤ '9' := by
  intro c hc
  rw [natToChars] at hc
  split at hc
  · simp at hc; subst hc; decide
  · rw [List.mem_reverse] at hc
    obtain ⟨d, hd, rfl⟩ := List.mem_map.mp hc
    have := myDigits_lt n d hd
    interval_cases d <;> decide

lemma parseInt64_natToChars (n : Nat) (h : (n : Int) < 2 ^ 63) :
    parseInt64 (natToChars n) = some (n : Int) := by
  obtain ⟨c, cs, hc⟩ : ∃ c cs, natToChars n = c :: cs := by
    cases hx : natToChars n with
    | nil => exact absurd hx (natToChars_ne_nil n)
    | cons c cs => exact ⟨c, cs, rfl⟩
  have hdig : '0' ≤ c ∧ c ≤ '9' := natToChars_all_digits n c (by rw [hc]; simp)
  have h1 : ¬ c = '+' := by rintro rfl; exact absurd hdig (by decide)
  have h2 : ¬ c = '-' := by rintro rfl; exact absurd hdig (by decide)
  rw [hc, parseInt64, if_neg h1, if_neg h2, ← hc, parseDigits_natToChars]
  simp [h]
  rw [pow63_lit] at h
  exact_mod_cast h

lemma parseInt64_formatInt (i : Int) (h1 : -(2 ^ 63) ≤ i) (h2 : i < 2 ^ 63) :
    parseInt64 (formatInt i) = some i := by
  rw [formatInt]
  split
  · rename_i hneg
    have hnn : ((-i).toNat : Int) = -i := Int.toNat_of_nonneg (by omega)
    have hrange : ((-i).toNat : Int) ≤ 2 ^ 63 := by
      rw [pow63_lit] at h1 ⊢; omega
    rw [parseInt64, if_neg (by decide), if_pos rfl, parseDigits_natToChars]
    simp [hrange, hnn]
    rw [pow63_lit] at h1
    omega
  · rename_i hpos
    have hnn : (i.toNat : Int) = i := Int.toNat_of_nonneg (by omega)
    rw [parseInt64_natToChars i.toNat (by omega), hnn]

/-! ### Two's-complement wrap -/

lemma wrap64_eq_self (i : Int) (h1 : -(2 ^ 63) ≤ i) (h2 : i < 2 ^ 63) :
    wrap64 i = i := by
  unfold wrap64; rw [pow63_lit, pow64_lit] at *; omega

lemma wrap64_range (i : Int) : -(2 ^ 63) ≤ wrap64 i ∧ wrap64 i < 2 ^ 63 := by
  unfold wrap64; rw [pow63_lit, pow64_lit]
  constructor <;> omega

lemma wrap64_add_wrap_left (a b : Int) : wrap64 (wrap64 a + b) = wrap64 (a + b) := by
  unfold wrap64; rw [pow63_lit, pow64_lit]; omega

/-! ### Behavior of `Incr` -/

lemma parseInt64_zeroChar : parseInt64 ['0'] = some 0 := by decide

lemma formatInt_natCast (N : Nat) : formatInt (N : Int) = natToChars N := by
  unfold formatInt
  rw [if_neg (by omega), Int.toNat_natCast]

lemma Incr_absent (db : KeyValueDB) (k : List Char) (n : Int)
    (hk : db.data k = none) (h1 : -(2 ^ 63) ≤ n) (h2 : n < 2 ^ 63) :
    (db.Incr k n).1 = Except.ok n ∧
    (db.Incr k n).2.data k = some (formatInt n) ∧
    (∀ k', k' ≠ k → (db.Incr k n).2.data k' = db.data k') ∧
    (db.Incr k n).2.queues = db.queues := by
  unfold KeyValueDB.Incr
  rw [hk]
  simp [parseInt64_zeroChar, wrap64_eq_self n h1 h2]
  intro k' hk'
  simp [hk']

lemma Incr_present_ok (db : KeyValueDB) (k v : List Char) (n cur : Int)
    (hv : db.data k = some v) (hp : parseInt64 v = some cur) :
    (db.Incr k n).1 = Except.ok (wrap64 (cur + n)) ∧
    (db.Incr k n).2.data k = some (formatInt (wrap64 (cur + n))) ∧
    (∀ k', k' ≠ k → (db.Incr k n).2.data k' = db.data k') ∧
    (db.Incr k n).2.queues = db.queues := by
  unfold KeyValueDB.Incr
  rw [hv]
  simp [hp]
  intro k' hk'
  simp [hk']

lemma Incr_present_err (db : KeyValueDB) (k v : List Char) (n : Int)
    (hv : db.data k = some v) (hp : parseInt64 v = none) :
    db.Incr k n = (Except.error (str "ERR value is not an integer"), db) := by
  unfold KeyValueDB.Incr
  rw [hv]
  simp [hp]

lemma incrN_lookup (db : KeyValueDB) (k : List Char) (hk : db.data k = none) :
    ∀ N : Nat, (incrN db k N).data k =
      if N = 0 then none else some (formatInt (wrap64 (N : Int))) := by
  intro N
  induction N with
  | zero => simpa [incrN]
  | succ M ih =>
    rw [incrN]
    by_cases hM : M = 0
    · subst hM
      simp only [if_pos rfl] at ih
      have h := Incr_absent (incrN db k 0) k 1 ih (by norm_num) (by norm_num)
      simp only [if_neg (by omega : ¬ (0 + 1 = 0))]
      rw [h.2.1]
      norm_num [wrap64_eq_self 1 (by norm_num) (by norm_num)]
    · simp only [if_neg hM] at ih
      have hr := wrap64_range (M : Int)
      have hp : parseInt64 (formatInt (wrap64 (M : Int))) = some (wrap64 (M : Int)) :=
        parseInt64_formatInt _ hr.1 hr.2
      have h := Incr_present_ok (incrN db k M) k _ 1 _ ih hp
      rw [if_neg (by omega), h.2.1, wrap64_add_wrap_left]
      push_cast
      rfl

lemma incrN_queues (db : KeyValueDB) (k : List Char) :
    ∀ N : Nat, (incrN db k N).queues = db.queues := by
  intro N
  induction N with
  | zero => rfl
  | succ M ih =>
    rw [incrN, ← ih]
    unfold KeyValueDB.Incr
    cases (incrN db k M).data k <;>
      simp <;> cases parseInt64 _ <;> simp

/-! ### Claims about the Store -/

/-- C4: for every key `k` absent from the Store and all int64 values `n`, `m`,
`Increment(k, n)` succeeds returning `n` and stores the decimal string of `n`
as `k`'s value, and `Increment(k, n)` followed by `Increment(k, m)` returns
`n + m` — the int64 sum of the source's `current += by`, hence `wrap64 (n + m)`
in general and exactly `n + m` whenever that sum is int64-representable. -/
theorem c4_incr_absent_then_incr (db : KeyValueDB) (k : List Char) (n m : Int)
    (hk : db.data k = none) (hn : inRange64 n) (_hm : inRange64 m) :
    (db.Incr k n).1 = Except.ok n ∧
    (db.Incr k n).2.data k = some (formatInt n) ∧
    ((db.Incr k n).2.Incr k m).1 = Except.ok (wrap64 (n + m)) ∧
    (inRange64 (n + m) → ((db.Incr k n).2.Incr k m).1 = Except.ok (n + m)) := by
  obtain ⟨hn1, hn2⟩ := hn
  have h1 := Incr_absent db k n hk hn1 hn2
  have hp : parseInt64 (formatInt n) = some n := parseInt64_formatInt n hn1 hn2
  have h2 := Incr_present_ok (db.Incr k n).2 k _ m n h1.2.1 hp
  exact ⟨h1.1, h1.2.1, h2.1, fun hr => by rw [h2.1, wrap64_eq_self _ hr.1 hr.2]⟩

/-- Witness for C4 at the empty store, `n = 2`, `m = 3`. -/
theorem c4_witness :
    (NewKeyValueDB.data (str "k") = none ∧ inRange64 2 ∧ inRange64 3) ∧
    ((NewKeyValueDB.Incr (str "k") 2).1 = Except.ok 2 ∧
     (NewKeyValueDB.Incr (str "k") 2).2.data (str "k") = some (formatInt 2) ∧
     (((NewKeyValueDB.Incr (str "k") 2).2.Incr (str "k") 3).1 = Except.ok (wrap64 (2 + 3)) ∧
      (inRange64 (2 + 3) →
        (((NewKeyValueDB.Incr (str "k") 2).2.Incr (str "k") 3).1 = Except.ok (2 + 3))))) :=
  ⟨⟨rfl, by decide, by decide⟩,
    c4_incr_absent_then_incr NewKeyValueDB (str "k") 2 3 rfl (by decide) (by decide)⟩

/-- C5: for every key whose stored value does not parse as a base-10 signed
64-bit integer and every amount, `Incr` fails with the not-an-integer error
and the whole mapping — in particular `k`'s stored value — is unchanged. -/
theorem c5_incr_not_integer (db : KeyValueDB) (k v : List Char) (n : Int)
    (hv : db.data k = some v) (hp : parseInt64 v = none) :
    db.Incr k n = (Except.error (str "ERR value is not an integer"), db) ∧
    (db.Incr k n).2.data k = some v := by
  have h := Incr_present_err db k v n hv hp
  exact ⟨h, by rw [h]; exact hv⟩

/-- Witness for C5: key `a` holds the text `abc`, `Incr` by 1 fails and the
value stays `abc`. -/
theorem c5_witness :
    ((NewKeyValueDB.Set (str "a") (str "abc")).2.data (str "a") = some (str "abc") ∧
      parseInt64 (str "abc") = none) ∧
    ((NewKeyValueDB.Set (str "a") (str "abc")).2.Incr (str "a") 1 =
      (Except.error (str "ERR value is not an integer"),
        (NewKeyValueDB.Set (str "a") (str "abc")).2) ∧
     ((NewKeyValueDB.Set (str "a") (str "abc")).2.Incr (str "a") 1).2.data (str "a") =
      some (str "abc")) :=
  ⟨⟨rfl, by decide⟩,
    c5_incr_not_integer (NewKeyValueDB.Set (str "a") (str "abc")).2
      (str "a") (str "abc") 1 rfl (by decide)⟩

/-- C6: a value without a space is always accepted by `Set` and read back
verbatim by `Get`; a value containing a space is accepted exactly when its
first and last characters are double quotes, and otherwise `Set` fails with
the validation error, leaving the store unchanged. -/
theorem c6_set_validation (db : KeyValueDB) (k v : List Char) :
    (v.contains ' ' = false →
      (db.Set k v).1 = Except.ok () ∧ (db.Set k v).2.Get k = some v) ∧
    (v.contains ' ' = true →
      ((db.Set k v).1 = Except.ok () ↔
        (v.head? = some '"' ∧ v.getLast? = some '"')) ∧
      (¬ (v.head? = some '"' ∧ v.getLast? = some '"') →
        db.Set k v =
          (Except.error (str "ERR syntax error: Value should be enclosed in quotes"), db))) := by
  constructor
  · intro hc
    have hmem : ' ' ∉ v := by simpa using hc
    have hvalid : isValidValue v = true := by simp [isValidValue, hmem]
    simp [KeyValueDB.Set, hvalid, KeyValueDB.Get]
  · intro hc
    have hmem : ' ' ∈ v := by simpa using hc
    have hbool : isValidValue v = true ↔
        (v.head? = some '"' ∧ v.getLast? = some '"') := by
      simp [isValidValue, hmem]
    constructor
    · constructor
      · intro hok
        by_contra hq
        have hfalse : ¬ isValidValue v = true := fun h => hq (hbool.mp h)
        rw [KeyValueDB.Set, if_pos hfalse] at hok
        exact absurd hok (by simp)
      · intro hq
        have htrue := hbool.mpr hq
        simp [KeyValueDB.Set, htrue]
    · intro hq
      have hfalse : ¬ isValidValue v = true := fun h => hq (hbool.mp h)
      rw [KeyValueDB.Set, if_pos hfalse]

/-- Witness for C6 on the spaced, quoted value `"a b"` (accepted) at the
empty store. -/
theorem c6_witness :
    ((str "\"a b\"").contains ' ' = true) ∧
    (((NewKeyValueDB.Set (str "k") (str "\"a b\"")).1 = Except.ok () ↔
      ((str "\"a b\"").head? = some '"' ∧ (str "\"a b\"").getLast? = some '"')) ∧
     (¬ ((str "\"a b\"").head? = some '"' ∧ (str "\"a b\"").getLast? = some '"') →
      NewKeyValueDB.Set (str "k") (str "\"a b\"") =
        (Except.error (str "ERR syntax error: Value should be enclosed in quotes"),
          NewKeyValueDB))) :=
  ⟨by decide, (c6_set_validation NewKeyValueDB (str "k") (str "\"a b\"")).2 (by decide)⟩

/-- C3 counterexample: the claim "N increments of a fresh key leave its value
equal to the decimal string of N" fails at `N = 0` (the key is still absent)
and at `N = 2^63 = 9223372036854775808` (the int64 counter overflows to
`-9223372036854775808`, so the stored decimal string is not that of `N`). -/
theorem c3_counterexample :
    (incrN NewKeyValueDB (str "k") 0).data (str "k") ≠ some (natToChars 0) ∧
    (incrN NewKeyValueDB (str "k") 9223372036854775808).data (str "k") ≠
      some (natToChars 9223372036854775808) := by
  constructor
  · decide
  · intro h
    rw [incrN_lookup NewKeyValueDB (str "k") rfl, if_neg (by norm_num)] at h
    have hw : wrap64 ((9223372036854775808 : Nat) : Int) = -9223372036854775808 := by
      unfold wrap64
      rw [pow63_lit, pow64_lit]
      norm_num
    rw [hw] at h
    have hf : formatInt (-9223372036854775808 : Int) =
        '-' :: natToChars 9223372036854775808 := by
      unfold formatInt
      rw [if_pos (by norm_num)]
      norm_num
      congr 1
    rw [hf] at h
    have hlen := congrArg List.length (Option.some.inj h)
    simp at hlen

/-- C3 (amended): modelling each mutex-guarded `Incr` call as one atomic
step (which the source's `db.mu` lock enforces), any interleaving of `N`
`Increment(k, 1)` calls on a fresh key is their sequential composition
`incrN`, and for every `1 ≤ N < 2^63` it leaves `k`'s stored value equal to
the decimal string of `N` — no lost updates. -/
theorem c3_amended_concurrent_incr (db : KeyValueDB) (k : List Char) (N : Nat)
    (hk : db.data k = none) (h1 : 1 ≤ N) (h2 : (N : Int) < 2 ^ 63) :
    (incrN db k N).data k = some (natToChars N) := by
  rw [incrN_lookup db k hk N, if_neg (by omega)]
  rw [wrap64_eq_self _ (le_trans (by norm_num) (Int.natCast_nonneg N)) h2,
    formatInt_natCast]

/-- Witness for C3 (amended) at `N = 3` on the empty store. -/
theorem c3_witness :
    (NewKeyValueDB.data (str "k") = none ∧ 1 ≤ 3 ∧ ((3 : Nat) : Int) < 2 ^ 63) ∧
    (incrN NewKeyValueDB (str "k") 3).data (str "k") = some (natToChars 3) :=
  ⟨⟨rfl, by norm_num, by norm_num⟩,
    c3_amended_concurrent_incr NewKeyValueDB (str "k") 3 rfl (by norm_num) (by norm_num)⟩

/-! ### Claims about the connection handler -/

/-- C8: in the Idle state (`currentTxID` empty), a line whose first token
upper-cases to `EXEC` replies exactly `ERR No transaction in progress`,
executes nothing, queues nothing, and leaves the database and the
transaction state unchanged. -/
theorem c8_exec_idle (db : KeyValueDB) (line p0 : List Char)
    (rest : List (List Char))
    (hf : fields (trimSpace line) = p0 :: rest)
    (hu : toUpperStr p0 = str "EXEC") :
    handleLine db [] line = ⟨db, [], [str "ERR No transaction in progress"], false⟩ := by
  simp only [handleLine, hf, hu]
  simp
  rw [if_neg (show str "EXEC" ∉ dataCmds by decide),
    if_neg (show ¬ str "EXEC" = str "MULTI" by decide)]

/-- Witness for C8 on the line `EXEC` at the empty database. -/
theorem c8_witness :
    (fields (trimSpace (str "EXEC")) = [str "EXEC"] ∧
      toUpperStr (str "EXEC") = str "EXEC") ∧
    handleLine NewKeyValueDB [] (str "EXEC") =
      ⟨NewKeyValueDB, [], [str "ERR No transaction in progress"], false⟩ :=
  ⟨⟨rfl, rfl⟩, c8_exec_idle NewKeyValueDB (str "EXEC") (str "EXEC") [] rfl rfl⟩

/-- C9: in the Queuing state (`currentTxID` non-empty), a line whose first
token upper-cases to one of SET, GET, DELETE, INCR, INCRBY is appended raw
(trimmed, unparsed) to that transaction's queue, the reply is `QUEUED`, and
the key-value mapping `data` is completely unchanged. -/
theorem c9_queuing_append (db : KeyValueDB) (tx line p0 : List Char)
    (rest : List (List Char))
    (htx : ¬ tx = []) (hf : fields (trimSpace line) = p0 :: rest)
    (hu : toUpperStr p0 ∈ dataCmds) :
    handleLine db tx line =
      ⟨db.QueueCommand tx (trimSpace line), tx, [str "QUEUED"], false⟩ ∧
    (handleLine db tx line).db.data = db.data ∧
    (handleLine db tx line).db.queues tx =
      some (((db.queues tx).getD []) ++ [trimSpace line]) := by
  have h1 : handleLine db tx line =
      ⟨db.QueueCommand tx (trimSpace line), tx, [str "QUEUED"], false⟩ := by
    simp only [handleLine, hf]
    rw [if_pos hu, if_neg htx]
  refine ⟨h1, by rw [h1]; rfl, by rw [h1]; simp [KeyValueDB.QueueCommand]⟩

/-- Witness for C9 on the line `GET a` queued under transaction `1`. -/
theorem c9_witness :
    (¬ (str "1") = [] ∧ fields (trimSpace (str "GET a")) = [str "GET", str "a"] ∧
      toUpperStr (str "GET") ∈ dataCmds) ∧
    (handleLine NewKeyValueDB (str "1") (str "GET a") =
      ⟨NewKeyValueDB.QueueCommand (str "1") (trimSpace (str "GET a")), str "1",
        [str "QUEUED"], false⟩ ∧
     (handleLine NewKeyValueDB (str "1") (str "GET a")).db.data = NewKeyValueDB.data ∧
     (handleLine NewKeyValueDB (str "1") (str "GET a")).db.queues (str "1") =
      some (((NewKeyValueDB.queues (str "1")).getD []) ++ [trimSpace (str "GET a")])) :=
  ⟨⟨by decide, rfl, by decide⟩,
    c9_queuing_append NewKeyValueDB (str "1") (str "GET a") (str "GET") [str "a"]
      (by decide) rfl (by decide)⟩

/-- C7: a non-transactional INCRBY line with a key and an amount replies
`(integer) <amount>` — the requested increment, not the resulting counter —
when the Store increment succeeds, and replies `ERR invalid increment`
without touching the Store when the amount does not parse as int64. -/
theorem c7_incrby_reply (db : KeyValueDB) (line p0 k amt : List Char)
    (rest : List (List Char))
    (hf : fields (trimSpace line) = p0 :: k :: amt :: rest)
    (hu : toUpperStr p0 = str "INCRBY") :
    (parseInt64 amt = none →
      handleLine db [] line = ⟨db, [], [str "ERR invalid increment"], false⟩) ∧
    (∀ n : Int, parseInt64 amt = some n → ∀ r : Int,
      (db.Incr k n).1 = Except.ok r →
      handleLine db [] line =
        ⟨(db.Incr k n).2, [], [str "(integer) " ++ formatInt n], false⟩) := by
  have hstep : handleLine db [] line =
      ⟨(executeSingleCommand (str "INCRBY") (p0 :: k :: amt :: rest) db).1, [],
        (executeSingleCommand (str "INCRBY") (p0 :: k :: amt :: rest) db).2, false⟩ := by
    simp only [handleLine, hf, hu]
    simp
    try exact fun hmem => absurd (show str "INCRBY" ∈ dataCmds by decide) hmem
  have hexe : executeSingleCommand (str "INCRBY") (p0 :: k :: amt :: rest) db =
      match parseInt64 amt with
      | none => (db, [str "ERR invalid increment"])
      | some n =>
        match db.Incr k n with
        | (Except.error e, db2) => (db2, [e])
        | (Except.ok _, db2) => (db2, [str "(integer) " ++ formatInt n]) := by
    simp only [executeSingleCommand]
    rw [if_pos trivial,
      if_neg (show ¬ str "INCRBY" = str "SET" by decide),
      if_neg (show ¬ str "INCRBY" = str "GET" by decide),
      if_neg (show ¬ str "INCRBY" = str "DELETE" by decide),
      if_neg (show ¬ str "INCRBY" = str "INCR" by decide)]
  constructor
  · intro hp
    rw [hstep, hexe]
    simp [hp]
  · intro n hp r hok
    rw [hstep, hexe]
    rcases hI : db.Incr k n with ⟨res, db2⟩
    rw [hI] at hok
    simp at hok
    subst hok
    simp [hp, hI]

/-- Witness for C7 on the line `INCRBY k 5` at the empty database. -/
theorem c7_witness :
    (fields (trimSpace (str "INCRBY k 5")) = [str "INCRBY", str "k", str "5"] ∧
      toUpperStr (str "INCRBY") = str "INCRBY" ∧
      parseInt64 (str "5") = some 5 ∧
      (NewKeyValueDB.Incr (str "k") 5).1 = Except.ok 5) ∧
    handleLine NewKeyValueDB [] (str "INCRBY k 5") =
      ⟨(NewKeyValueDB.Incr (str "k") 5).2, [], [str "(integer) " ++ formatInt 5], false⟩ :=
  ⟨⟨rfl, rfl, by decide, rfl⟩,
    (c7_incrby_reply NewKeyValueDB (str "INCRBY k 5") (str "INCRBY") (str "k")
      (str "5") [] rfl rfl).2 5 (by decide) 5 rfl⟩

/-- C2 counterexample: after `MULTI`, `SET a b`, `MULTI`, the queue under the
(fixed) identifier `1` still holds the previously queued `SET a b` — it is
not a fresh empty queue — and the subsequent `EXEC` emits a reply derived
from that previously queued command. -/
theorem c2_counterexample :
    ((runLines NewKeyValueDB [] [str "MULTI", str "SET a b", str "MULTI"]).1.queues
      (str "1") = some [str "SET a b"]) ∧
    (runLines NewKeyValueDB [] [str "MULTI", str "SET a b", str "MULTI", str "EXEC"]).2.2 =
      [str "OK", str "QUEUED", str "OK", str "Unknown command: EXEC", str "SET a b"] := by
  constructor <;> decide

/-- C2 (amended): receiving `MULTI` — in any state, in particular while
already Queuing with commands queued — replies `OK` and keeps the fixed
transaction identifier `1`, leaving the database, including every queued
command under that identifier, completely unchanged; prior queued commands
are therefore retained, not discarded, and a subsequent `EXEC` drains all of
them. -/
theorem c2_amended_multi_keeps_queue (db : KeyValueDB) (tx : List Char) :
    handleLine db tx (str "MULTI") = ⟨db, str "1", [str "OK"], false⟩ := rfl

/-- C10 counterexample: for `MULTI` immediately followed by `EXEC`, the EXEC
reply is not the single line `ERR Transaction does not exist`: a spurious
`Unknown command: EXEC` line precedes it. -/
theorem c10_counterexample :
    (runLines NewKeyValueDB [] [str "MULTI", str "EXEC"]).2.2 =
      [str "OK", str "Unknown command: EXEC", str "ERR Transaction does not exist"] ∧
    (runLines NewKeyValueDB [] [str "MULTI", str "EXEC"]).2.2 ≠
      [str "OK", str "ERR Transaction does not exist"] := by
  constructor <;> decide

/-- C10 (amended): when no queue entry exists under identifier `1` —
`MULTI` creates none; the entry is created lazily by the first queued
command — sending `MULTI` then `EXEC` replies `OK` to MULTI, and the EXEC
reply is the two lines `Unknown command: EXEC` (from re-invoking the
executor on the stale EXEC arguments) and `ERR Transaction does not exist`
(from the missing queue entry), with the database unchanged and the
connection back in Idle. -/
theorem c10_amended_multi_exec_empty (db : KeyValueDB) (tx : List Char)
    (hq : db.queues (str "1") = none) :
    handleLine db tx (str "MULTI") = ⟨db, str "1", [str "OK"], false⟩ ∧
    handleLine db (str "1") (str "EXEC") =
      ⟨db, [], [str "Unknown command: EXEC", str "ERR Transaction does not exist"],
        false⟩ := by
  refine ⟨rfl, ?_⟩
  have hfe : fields (trimSpace (str "EXEC")) = [str "EXEC"] := rfl
  have hue : toUpperStr (str "EXEC") = str "EXEC" := rfl
  have hex : db.Exec (str "1") = ([str "ERR Transaction does not exist"], db) := by
    unfold KeyValueDB.Exec; rw [hq]
  simp only [handleLine, hfe, hue]
  rw [if_pos trivial, if_neg (show ¬ (str "1" : List Char) = [] by decide), hex]
  rfl

/-- Witness for C10 (amended) at the empty database. -/
theorem c10_witness :
    (NewKeyValueDB.queues (str "1") = none) ∧
    (handleLine NewKeyValueDB [] (str "MULTI") =
      ⟨NewKeyValueDB, str "1", [str "OK"], false⟩ ∧
     handleLine NewKeyValueDB (str "1") (str "EXEC") =
      ⟨NewKeyValueDB, [],
        [str "Unknown command: EXEC", str "ERR Transaction does not exist"], false⟩) :=
  ⟨rfl, c10_amended_multi_exec_empty NewKeyValueDB [] rfl⟩

/-- C1 (code bug, evaluated): in the session `MULTI`, `INCR a`, `EXEC` the
queued `INCR a` is never parsed and executed — key `a` stays absent — and
the EXEC phase emits two lines for the single queued command
(`Unknown command: EXEC` from the stale re-invocation, then
`Unknown command: INCR` echoed from the queue scan), contradicting
"each queued line is executed, one reply line per queued command". -/
theorem c1_exec_stale_replay_eval :
    (runLines NewKeyValueDB [] [str "MULTI", str "INCR a", str "EXEC"]).2.2 =
      [str "OK", str "QUEUED",
        str "Unknown command: EXEC", str "Unknown command: INCR"] ∧
    (runLines NewKeyValueDB [] [str "MULTI", str "INCR a", str "EXEC"]).1.data
      (str "a") = none := by
  constructor <;> decide
